import Mathlib

/-!
Verification of the Sandcastle Gmail transaction-import pipeline.

Strings are modelled as `List Char`; byte buffers as `List Nat` (each entry
a byte, `< 256`); monetary amounts as integer cents (the source computes
`Math.round(parseFloat(x) * 100) / 100`, i.e. an exact value with two
decimal digits, which we represent by its integer number of cents).
Character classes (`\s`, lower-casing) are modelled over ASCII, which covers
every pattern and keyword the source uses.

Several scanning loops are written with an explicit fuel argument set to the
length of the scanned list; every iteration consumes at least one character
of the input while spending one unit of fuel, so the fuel never runs out and
the functions compute exactly what the source's loops compute.
-/

/-- ASCII lower-casing, as used for the source's `toLowerCase()` on the
keyword gate (all keywords are ASCII). -/
def lowerChar (c : Char) : Char :=
  if 'A' ≤ c ∧ c ≤ 'Z' then Char.ofNat (c.toNat + 32) else c

/-- ASCII whitespace, modelling the `\s` character class. -/
def isWsChar (c : Char) : Bool :=
  c == ' ' || c == '\t' || c == '\n' || c == '\r' ||
  c.toNat == 11 || c.toNat == 12

/-- Case-insensitive "starts with": the pattern is given in lower case and
compared against the lower-cased input. -/
def ciStartsWith : List Char → List Char → Bool
  | [], _ => true
  | _ :: _, [] => false
  | p :: ps, c :: cs => lowerChar c == p && ciStartsWith ps cs

def skipWs (s : List Char) : List Char := s.dropWhile isWsChar

/-- JS `String.prototype.trim` over ASCII whitespace. -/
def trimWs (s : List Char) : List Char :=
  ((s.dropWhile isWsChar).reverse.dropWhile isWsChar).reverse

/-- The base64 alphabet. -/
def b64Alphabet : List Char :=
  ("ABCDEFGHIJKLMNOPQRSTUVWXYZabcdefghijklmnopqrstuvwxyz0123456789+/").toList

def b64Char (n : Nat) : Char := b64Alphabet.getD n 'A'

/-- Value of a base64 digit; `none` for padding and foreign characters. -/
def b64Val (c : Char) : Option Nat :=
  if 'A' ≤ c ∧ c ≤ 'Z' then some (c.toNat - 65)
  else if 'a' ≤ c ∧ c ≤ 'z' then some (c.toNat - 71)
  else if '0' ≤ c ∧ c ≤ '9' then some (c.toNat + 4)
  else if c = '+' then some 62
  else if c = '/' then some 63
  else none

/-- Standard base64 encoding of a byte list (`Buffer.toString('base64')`). -/
def b64encode : List Nat → List Char
  | [] => []
  | [a] => [b64Char (a / 4), b64Char ((a % 4) * 16), '=', '=']
  | [a, b] => [b64Char (a / 4), b64Char ((a % 4) * 16 + b / 16), b64Char ((b % 16) * 4), '=']
  | a :: b :: c :: rest =>
    b64Char (a / 4) :: b64Char ((a % 4) * 16 + b / 16) ::
    b64Char ((b % 16) * 4 + c / 64) :: b64Char (c % 64) :: b64encode rest

/-- Base64 decoding of a padded base64 text to bytes
(`Buffer.from(s, 'base64')` on well-formed input). -/
def b64decode : List Char → List Nat
  | a :: b :: c :: d :: rest =>
    match b64Val a, b64Val b with
    | some va, some vb =>
      if c = '=' then [va * 4 + vb / 16]
      else
        match b64Val c with
        | some vc =>
          if d = '=' then [va * 4 + vb / 16, (vb % 16) * 16 + vc / 4]
          else
            match b64Val d with
            | some vd =>
              (va * 4 + vb / 16) :: ((vb % 16) * 16 + vc / 4) ::
              ((vc % 4) * 64 + vd) :: b64decode rest
            | none => [va * 4 + vb / 16, (vb % 16) * 16 + vc / 4]
        | none => [va * 4 + vb / 16]
    | _, _ => []
  | _ => []

/-- Unicode replacement character, used where the library decoder would
substitute malformed UTF-8. -/
def replChar : Char := Char.ofNat 0xFFFD

/-- UTF-8 decoding of a byte list (`Buffer.toString('utf8')`): exact on
well-formed sequences; malformed bytes become replacement characters.
Each step consumes at least one byte, so fuel equal to the input length
(see `utf8Decode`) never runs out. -/
def utf8DecodeFuel : Nat → List Nat → List Char
  | 0, _ => []
  | _, [] => []
  | fuel + 1, b :: rest =>
    if b < 0x80 then Char.ofNat b :: utf8DecodeFuel fuel rest
    else if b < 0xC2 then replChar :: utf8DecodeFuel fuel rest
    else if b < 0xE0 then
      match rest with
      | b1 :: r =>
        if 0x80 ≤ b1 ∧ b1 < 0xC0 then
          Char.ofNat ((b - 0xC0) * 64 + (b1 - 0x80)) :: utf8DecodeFuel fuel r
        else replChar :: utf8DecodeFuel fuel rest
      | [] => [replChar]
    else if b < 0xF0 then
      match rest with
      | b1 :: b2 :: r =>
        if (0x80 ≤ b1 ∧ b1 < 0xC0) ∧ (0x80 ≤ b2 ∧ b2 < 0xC0) ∧
           ¬(b = 0xE0 ∧ b1 < 0xA0) ∧ ¬(b = 0xED ∧ 0xA0 ≤ b1) then
          Char.ofNat ((b - 0xE0) * 4096 + (b1 - 0x80) * 64 + (b2 - 0x80)) :: utf8DecodeFuel fuel r
        else replChar :: utf8DecodeFuel fuel rest
      | _ => replChar :: utf8DecodeFuel fuel rest
    else if b < 0xF5 then
      match rest with
      | b1 :: b2 :: b3 :: r =>
        if (0x80 ≤ b1 ∧ b1 < 0xC0) ∧ (0x80 ≤ b2 ∧ b2 < 0xC0) ∧
           (0x80 ≤ b3 ∧ b3 < 0xC0) ∧
           ¬(b = 0xF0 ∧ b1 < 0x90) ∧ ¬(b = 0xF4 ∧ 0x90 ≤ b1) then
          Char.ofNat ((b - 0xF0) * 262144 + (b1 - 0x80) * 4096 +
            (b2 - 0x80) * 64 + (b3 - 0x80)) :: utf8DecodeFuel fuel r
        else replChar :: utf8DecodeFuel fuel rest
      | _ => replChar :: utf8DecodeFuel fuel rest
    else replChar :: utf8DecodeFuel fuel rest

/-- UTF-8 decoding at adequate fuel. -/
def utf8Decode (l : List Nat) : List Char := utf8DecodeFuel l.length l

/-- `decodeBase64Url` from the source: map the url-safe alphabet back to the
standard one, restore `=` padding up to a multiple of four, then base64- and
UTF-8-decode.  The empty input yields the empty string. -/
def decodeBase64Url (input : List Char) : List Char :=
  if input = [] then []
  else
    let normalized := input.map (fun c => if c = '-' then '+' else if c = '_' then '/' else c)
    let target := ((normalized.length + 3) / 4) * 4
    let padded := normalized ++ List.replicate (target - normalized.length) '='
    utf8Decode (b64decode padded)

/-- One Gmail message header (name/value pair). -/
structure MailHeader where
  name : List Char
  value : List Char
deriving DecidableEq

/-- A MIME part: header list, optional mime type, optional base64url body
payload, child parts.  An absent or empty `mimeType`/`body.data` in the
source (both falsy in JS) is modelled as `none`; an absent or non-array
`parts` is the empty list. -/
inductive MimePart where
  | mk (headers : List MailHeader) (mimeType : Option (List Char))
       (bodyData : Option (List Char)) (children : List MimePart)

def MimePart.headersOf : MimePart → List MailHeader
  | .mk hs _ _ _ => hs

mutual
/-- `collectBodyText` of the source, on one part: a space plus the decoded
body when present, then the children's text, then — for parts whose mime
type starts with `text/` and which carry a body — the decoded body a second
time (this is what the source computes). -/
def collectPart : MimePart → List Char
  | .mk _ mt bd children =>
    (match bd with
     | some d => ' ' :: decodeBase64Url d
     | none => []) ++
    collectChildren children ++
    (match mt, bd with
     | some t, some d =>
       if List.isPrefixOf (("text/").toList) t then ' ' :: decodeBase64Url d else []
     | _, _ => [])

def collectChildren : List MimePart → List Char
  | [] => []
  | p :: ps => (' ' :: collectPart p) ++ collectChildren ps
end

/-- `collectBodyText` applied to an optional payload (`!payload` gives `''`). -/
def collectBodyText : Option MimePart → List Char
  | none => []
  | some p => collectPart p

/-- Strip HTML tags: each `<[^>]*>` becomes a single space; a `<` with no
closing `>` is kept literally (leftmost, non-overlapping global replace). -/
def afterGt : List Char → Option (List Char)
  | [] => none
  | c :: r => if c == '>' then some r else afterGt r

/-- `replace(/<[^>]*>/g, ' ')`, with fuel equal to the input length (each
step consumes at least one character). -/
def stripTagsFuel : Nat → List Char → List Char
  | 0, s => s
  | _, [] => []
  | fuel + 1, c :: rest =>
    if c == '<' then
      match afterGt rest with
      | some after => ' ' :: stripTagsFuel fuel after
      | none => c :: stripTagsFuel fuel rest
    else c :: stripTagsFuel fuel rest

def stripTags (s : List Char) : List Char := stripTagsFuel s.length s

/-- Case-insensitive global literal replacement (the source's
`replace(/pat/gi, repl)` for a fixed literal pattern, given lower-cased). -/
def ciReplaceFuel (pat repl : List Char) : Nat → List Char → List Char
  | 0, s => s
  | _, [] => []
  | fuel + 1, c :: rest =>
    if ciStartsWith pat (c :: rest) then
      repl ++ ciReplaceFuel pat repl fuel ((c :: rest).drop pat.length)
    else c :: ciReplaceFuel pat repl fuel rest

def ciReplace (pat repl s : List Char) : List Char := ciReplaceFuel pat repl s.length s

/-- `replace(/\s+/g, ' ')`: collapse every whitespace run to one space. -/
def collapseWsFuel : Nat → List Char → List Char
  | 0, s => s
  | _, [] => []
  | fuel + 1, c :: rest =>
    if isWsChar c then ' ' :: collapseWsFuel fuel (rest.dropWhile isWsChar)
    else c :: collapseWsFuel fuel rest

def collapseWs (s : List Char) : List Char := collapseWsFuel s.length s

/-- Digit-or-comma, the `[0-9,]` class of the amount pattern. -/
def digitOrComma (c : Char) : Bool := c.isDigit || c == ','

/-- Greedy match of the numeric tail `[0-9][0-9,]*(?:\.[0-9]{1,2})?` at the
head of the input: returns the captured numeral and the remaining text.
The optional decimal group is taken only when a `.` is directly followed by
a digit, and then takes two digits when available, one otherwise — exactly
the regex's greedy semantics (the classes are disjoint, so no backtracking
can produce a different match). -/
def grabNumber : List Char → Option (List Char × List Char)
  | [] => none
  | c :: rest =>
    if c.isDigit then
      let ds := rest.takeWhile digitOrComma
      let r1 := rest.dropWhile digitOrComma
      match r1 with
      | '.' :: d1 :: r2 =>
        if d1.isDigit then
          match r2 with
          | d2 :: r3 =>
            if d2.isDigit then some (c :: ds ++ ['.', d1, d2], r3)
            else some (c :: ds ++ ['.', d1], r2)
          | [] => some (c :: ds ++ ['.', d1], [])
        else some (c :: ds, r1)
      | _ => some (c :: ds, r1)
    else none

/-- Attempt of `/Amount:\s*SGD\s*([0-9][0-9,]*(?:\.[0-9]{1,2})?)/i` anchored
at the head of the input; on success returns the capture and the text after
the whole match. -/
def matchLabeledAt (s : List Char) : Option (List Char × List Char) :=
  if ciStartsWith (("amount:").toList) s then
    let s1 := skipWs (s.drop 7)
    if ciStartsWith (("sgd").toList) s1 then grabNumber (skipWs (s1.drop 3))
    else none
  else none

/-- `matchAll` scan for the labeled amount pattern: leftmost,
non-overlapping, resuming after each full match.  Fuel is the input length;
a successful match consumes at least eight characters per fuel unit. -/
def scanLabeled : Nat → List Char → List (List Char)
  | 0, _ => []
  | _, [] => []
  | fuel + 1, c :: rest =>
    match matchLabeledAt (c :: rest) with
    | some (cap, after) => cap :: scanLabeled fuel after
    | none => scanLabeled fuel rest

/-- All captures of the global labeled-amount pattern, in text order. -/
def allLabeledAmounts (s : List Char) : List (List Char) := scanLabeled s.length s

/-- Attempt of the bare pattern `/SGD\s*([0-9][0-9,]*(?:\.[0-9]{1,2})?)/i`
anchored at the head of the input. -/
def matchBareAt (s : List Char) : Option (List Char) :=
  if ciStartsWith (("sgd").toList) s then
    (grabNumber (skipWs (s.drop 3))).map (fun pr => pr.1)
  else none

/-- First (leftmost) capture of the bare amount pattern, the source's
`textContent.match(amountRegex)`. -/
def firstBareAmount : List Char → Option (List Char)
  | [] => none
  | c :: rest =>
    match matchBareAt (c :: rest) with
    | some cap => some cap
    | none => firstBareAmount rest

/-- The test `/\.\d{2}$/` on a capture: it ends in a dot and two digits. -/
def hasTwoDecimals (s : List Char) : Bool :=
  match s.reverse with
  | d2 :: d1 :: c :: _ => c == '.' && d1.isDigit && d2.isDigit
  | _ => false

/-- The lookahead of the recipient pattern: the remaining text is empty or
starts (case-insensitively) with one of the terminator labels. -/
def stopsHere (s : List Char) : Bool :=
  s.isEmpty || ciStartsWith (("from:").toList) s ||
  ciStartsWith (("if unauthorised").toList) s || ciStartsWith (("to view").toList) s

/-- The lazy group `([^]+?)` before the lookahead: one character, then
extend one character at a time until the lookahead holds (it always holds at
the end of the text). -/
def growCapture : List Char → List Char
  | [] => []
  | c :: r => if stopsHere r then [c] else c :: growCapture r

/-- Behaviour of `\s*([^]+?)(?=...)` after a matched `To:` label, including
the backtracking case in which the whole remainder is whitespace and the
group is forced to take the last whitespace character. -/
def toCaptureAfter (rest : List Char) : Option (List Char) :=
  let k := (rest.takeWhile isWsChar).length
  let body := rest.drop k
  match body with
  | [] => if k = 0 then none else some ((rest.drop (k - 1)).take 1)
  | _ :: _ => some (growCapture body)

/-- Leftmost match of `/To:\s*([^]+?)(?=From:|If unauthorised|To view|$)/i`:
the capture of the first position where `To:` matches and the tail admits a
non-empty group. -/
def toCapture : List Char → Option (List Char)
  | [] => none
  | c :: rest =>
    if ciStartsWith (("to:").toList) (c :: rest) then
      match toCaptureAfter ((c :: rest).drop 3) with
      | some g => some g
      | none => toCapture rest
    else toCapture rest

/-- Numeric value of a digit character. -/
def digitVal (c : Char) : Nat := c.toNat - 48

def digitsVal (s : List Char) : Nat := s.foldl (fun a c => a * 10 + digitVal c) 0

/-- Value in integer cents of a captured numeral: commas stripped
(`replace(/,/g, '')`), the integer part times 100 plus the one- or
two-digit decimal part.  This is exactly the value of the source's
`Math.round(parseFloat(x) * 100) / 100`, expressed in cents. -/
def centsOfCapture (cap : List Char) : Nat :=
  let noCommas := cap.filter (fun c => c != ',')
  let intPart := noCommas.takeWhile (fun c => c != '.')
  let fracPart := (noCommas.dropWhile (fun c => c != '.')).drop 1
  digitsVal intPart * 100 +
    (match fracPart with
     | [] => 0
     | [d] => digitVal d * 10
     | d1 :: d2 :: _ => digitVal d1 * 10 + digitVal d2)

/-- The source's selection among the labeled captures: the first one passing
the two-decimal test (`Array.prototype.find`), else the last capture
(`matches[matches.length - 1]`); `none` when there is no labeled match. -/
def chooseLabeledCapture (caps : List (List Char)) : Option (List Char) :=
  match caps.find? hasTwoDecimals with
  | some c => some c
  | none => caps.getLast?

/-- The capture the amount is read from: the labeled selection when any
labeled match exists, otherwise the first bare `SGD <number>` match. -/
def amountCapture (text : List Char) : Option (List Char) :=
  match chooseLabeledCapture (allLabeledAmounts text) with
  | some c => some c
  | none => firstBareAmount text

/-- A Gmail message as fetched by the import route: ids, snippet, optional
internal timestamp (epoch milliseconds) and optional MIME payload carrying
the header list. -/
structure GmailMessage where
  id : List Char
  threadId : List Char
  snippet : List Char
  internalDate : Option Int
  payload : Option MimePart

/-- Value of the first header with the given (exact, case-sensitive) name;
empty when the payload or the header is missing. -/
def headerValue (m : GmailMessage) (key : List Char) : List Char :=
  match m.payload with
  | none => []
  | some p =>
    match p.headersOf.find? (fun h => h.name == key) with
    | some h => h.value
    | none => []

def subjectOf (m : GmailMessage) : List Char := headerValue m (("Subject").toList)

def fromOf (m : GmailMessage) : List Char := headerValue m (("From").toList)

def dateHeaderOf (m : GmailMessage) : List Char := headerValue m (("Date").toList)

/-- The raw combined blob: subject, snippet and decoded body joined by
spaces (template literal of the source). -/
def contentOf (m : GmailMessage) : List Char :=
  subjectOf m ++ ' ' :: m.snippet ++ ' ' :: collectBodyText m.payload

/-- The normalized display text: tags stripped, the three entities decoded
in the source's order, whitespace collapsed, then trimmed. -/
def textContentOf (m : GmailMessage) : List Char :=
  trimWs (collapseWs
    (ciReplace (("&amp;").toList) ['&']
      (ciReplace (("&zwnj;").toList) []
        (ciReplace (("&nbsp;").toList) [' ']
          (stripTags (contentOf m))))))

/-- The lower-cased raw blob the keyword gate scans. -/
def lowerOf (m : GmailMessage) : List Char := (contentOf m).map lowerChar

/-- The fixed incoming-funds keyword set. -/
def receiveKeywords : List (List Char) :=
  [("receive").toList, ("received").toList, ("receiving").toList,
   ("credit").toList, ("credited").toList]

/-- JS `String.prototype.includes`: the needle occurs contiguously anywhere
in the haystack. -/
def containsSub (needle : List Char) : List Char → Bool
  | [] => needle.isEmpty
  | c :: rest => List.isPrefixOf needle (c :: rest) || containsSub needle rest

/-- The classification gate: some keyword occurs anywhere in the lower-cased
blob. -/
def keywordGate (m : GmailMessage) : Bool :=
  receiveKeywords.any (fun k => containsSub k (lowerOf m))

/-- Occurrence timestamp: internal timestamp when present, else the `Date`
header (parsed downstream), else the processing time. -/
inductive OccurredAt where
  | fromInternal (ms : Int)
  | fromHeader (s : List Char)
  | now
deriving DecidableEq

/-- The candidate transaction built by the extractor.  `amount` is in
integer cents. -/
structure ExtractedTransaction where
  name : List Char
  merchant : List Char
  amount : Option Int
  currency : List Char
  occurredAt : OccurredAt
  source : List Char
  messageId : List Char
  threadId : List Char
  needsReview : Bool
deriving DecidableEq

/-- The trimmed recipient capture (`toMatch ? toMatch[1].trim() : ''`). -/
def toValOf (m : GmailMessage) : List Char :=
  match toCapture (textContentOf m) with
  | some g => trimWs g
  | none => []

/-- The amount, in integer cents, read from the selected capture. -/
def amountOf (m : GmailMessage) : Option Int :=
  (amountCapture (textContentOf m)).map (fun cap => (Int.ofNat (centsOfCapture cap)))

/-- The occurrence timestamp's three-way fallback. -/
def occurredAtOf (m : GmailMessage) : OccurredAt :=
  match m.internalDate with
  | some ms => OccurredAt.fromInternal ms
  | none =>
    if dateHeaderOf m = [] then OccurredAt.now
    else OccurredAt.fromHeader (dateHeaderOf m)

/-- The record returned by `parseGmailTransaction` when the keyword gate
does not fire (`name = to || 'Gmail import'`). -/
def buildTx (m : GmailMessage) : ExtractedTransaction :=
  { name := if toValOf m = [] then ("Gmail import").toList else toValOf m
    merchant := fromOf m
    amount := amountOf m
    currency := ("SGD").toList
    occurredAt := occurredAtOf m
    source := ("gmail").toList
    messageId := m.id
    threadId := m.threadId
    needsReview := (amountOf m).isNone }

/-- `parseGmailTransaction` of the source: `null` when the keyword gate
fires, else the extracted record. -/
def parseGmailTransaction (m : GmailMessage) : Option ExtractedTransaction :=
  if keywordGate m then none else some (buildTx m)

/-- One persisted transaction row: the dedup key is `(userId, messageId)`. -/
structure TxRow where
  userId : List Char
  tx : ExtractedTransaction
deriving DecidableEq

/-- Does the store hold a row under the dedup key? -/
def hasKey (store : List TxRow) (uid mid : List Char) : Bool :=
  store.any (fun r => r.userId == uid && r.tx.messageId == mid)

/-- One `updateOne` of the bulk upsert: `$setOnInsert` with `upsert: true`
inserts the item only when no row matches the dedup key, and never modifies
a matching row. -/
def applyWrite (store : List TxRow) (uid : List Char) (item : ExtractedTransaction) : List TxRow :=
  if hasKey store uid item.messageId then store else store ++ [⟨uid, item⟩]

/-- `Transaction.bulkWrite` over the ordered write list. -/
def bulkWrite (store : List TxRow) (uid : List Char) (items : List ExtractedTransaction) : List TxRow :=
  items.foldl (fun s it => applyWrite s uid it) store

/-- The coordinator's keep condition `!(!parsed.amount)`: the amount is
present and non-zero. -/
def keptByImport (p : ExtractedTransaction) : Bool :=
  match p.amount with
  | some a => a != 0
  | none => false

/-- The messages that survive extraction and filtering, in order. -/
def importedOf (msgs : List GmailMessage) : List ExtractedTransaction :=
  msgs.filterMap (fun m =>
    match parseGmailTransaction m with
    | some p => if keptByImport p then some p else none
    | none => none)

/-- The import route, from the point where the message details have been
fetched: bulk-upsert the surviving extractions and respond with
`writes.length`. -/
def runImport (uid : List Char) (msgs : List GmailMessage) (store : List TxRow) :
    List TxRow × Nat :=
  (bulkWrite store uid (importedOf msgs), (importedOf msgs).length)

/-- An authenticated-encryption failure (`decipher.final()` throwing). -/
inductive CryptoError where
  | authError
deriving DecidableEq

/-- Modelled from the spec: the AES-256-GCM primitive used through
`crypto.createCipheriv`/`createDecipheriv` is library code outside this
repository; per the specification it is an authenticated symmetric cipher:
`enc key nonce plaintext` yields `(ciphertext, tag)` and
`dec key nonce ciphertext tag` yields the plaintext when the tag verifies
and rejects otherwise.  The vault theorems take these contract properties as
hypotheses. -/
structure AEAD where
  enc : List Nat → List Nat → List Nat → List Nat × List Nat
  dec : List Nat → List Nat → List Nat → List Nat → Option (List Nat)

/-- `encrypt` of the source: `null` on empty input, else the base64 blob of
`iv ‖ tag ‖ ciphertext` (the iv is the 12-byte random nonce drawn by the
call, passed here as an argument). -/
def encryptVault (A : AEAD) (key iv pt : List Nat) : Option (List Char) :=
  if pt = [] then none
  else some (b64encode (iv ++ (A.enc key iv pt).2 ++ (A.enc key iv pt).1))

/-- `decrypt` of the source: `null` on empty input, else split the decoded
blob at offsets 12 and 28 into iv, tag and ciphertext and run the cipher;
a tag failure propagates as an authentication error. -/
def decryptVault (A : AEAD) (key : List Nat) (payload : List Char) :
    Except CryptoError (Option (List Nat)) :=
  if payload = [] then Except.ok none
  else
    match A.dec key ((b64decode payload).take 12) ((b64decode payload).drop 28)
      (((b64decode payload).drop 12).take 16) with
    | some p => Except.ok (some p)
    | none => Except.error CryptoError.authError

theorem b64Val_b64Char : ∀ n : Nat, n < 64 → b64Val (b64Char n) = some n := by decide

theorem b64Char_ne_pad : ∀ n : Nat, n < 64 → ¬(b64Char n = '=') := by decide

theorem b64decode_encode : ∀ l : List Nat, (∀ x ∈ l, x < 256) → b64decode (b64encode l) = l := by
  intro l
  induction l using b64encode.induct with
  | case1 => intro; rfl
  | case2 a =>
    intro hb
    have ha : a < 256 := hb a (by simp)
    have h1 : b64Val (b64Char (a / 4)) = some (a / 4) := b64Val_b64Char _ (by omega)
    have h2 : b64Val (b64Char ((a % 4) * 16)) = some ((a % 4) * 16) := b64Val_b64Char _ (by omega)
    simp [b64encode, b64decode, h1, h2]
    omega
  | case3 a b =>
    intro hb
    have ha : a < 256 := hb a (by simp)
    have hbb : b < 256 := hb b (by simp)
    have h1 : b64Val (b64Char (a / 4)) = some (a / 4) := b64Val_b64Char _ (by omega)
    have h2 : b64Val (b64Char ((a % 4) * 16 + b / 16)) = some ((a % 4) * 16 + b / 16) :=
      b64Val_b64Char _ (by omega)
    have h3 : b64Val (b64Char ((b % 16) * 4)) = some ((b % 16) * 4) := b64Val_b64Char _ (by omega)
    have h3n : ¬(b64Char ((b % 16) * 4) = '=') := b64Char_ne_pad _ (by omega)
    simp [b64encode, b64decode, h1, h2, h3, h3n]
    omega
  | case4 a b c rest ih =>
    intro hb
    have ha : a < 256 := hb a (by simp)
    have hbb : b < 256 := hb b (by simp)
    have hc : c < 256 := hb c (by simp)
    have h1 : b64Val (b64Char (a / 4)) = some (a / 4) := b64Val_b64Char _ (by omega)
    have h2 : b64Val (b64Char ((a % 4) * 16 + b / 16)) = some ((a % 4) * 16 + b / 16) :=
      b64Val_b64Char _ (by omega)
    have h3 : b64Val (b64Char ((b % 16) * 4 + c / 64)) = some ((b % 16) * 4 + c / 64) :=
      b64Val_b64Char _ (by omega)
    have h4 : b64Val (b64Char (c % 64)) = some (c % 64) := b64Val_b64Char _ (by omega)
    have h3n : ¬(b64Char ((b % 16) * 4 + c / 64) = '=') := b64Char_ne_pad _ (by omega)
    have h4n : ¬(b64Char (c % 64) = '=') := b64Char_ne_pad _ (by omega)
    have ihh := ih (fun x hx => hb x (by simp [hx]))
    simp [b64encode, b64decode, h1, h2, h3, h4, h3n, h4n, ihh]
    omega

theorem b64encode_ne_nil : ∀ l : List Nat, l ≠ [] → b64encode l ≠ [] := by
  intro l hl
  match l with
  | [a] => simp [b64encode]
  | [a, b] => simp [b64encode]
  | a :: b :: c :: rest => simp [b64encode]

theorem hasKey_append (s t : List TxRow) (uid mid : List Char) :
    hasKey (s ++ t) uid mid = (hasKey s uid mid || hasKey t uid mid) := by
  simp [hasKey, List.any_append]

theorem hasKey_applyWrite_of (s : List TxRow) (uid mid : List Char)
    (it : ExtractedTransaction) (h : hasKey s uid mid = true) :
    hasKey (applyWrite s uid it) uid mid = true := by
  unfold applyWrite
  split
  · exact h
  · simp [hasKey_append, h]

theorem hasKey_applyWrite_self (s : List TxRow) (uid : List Char)
    (it : ExtractedTransaction) :
    hasKey (applyWrite s uid it) uid it.messageId = true := by
  unfold applyWrite
  split
  · assumption
  · simp [hasKey_append, hasKey]

theorem hasKey_bulkWrite_of (items : List ExtractedTransaction) :
    ∀ (s : List TxRow) (uid mid : List Char), hasKey s uid mid = true →
      hasKey (bulkWrite s uid items) uid mid = true := by
  induction items with
  | nil => intro s uid mid h; exact h
  | cons it rest ih =>
    intro s uid mid h
    exact ih (applyWrite s uid it) uid mid (hasKey_applyWrite_of s uid mid it h)

theorem hasKey_bulkWrite (items : List ExtractedTransaction) :
    ∀ (s : List TxRow) (uid : List Char) (it : ExtractedTransaction), it ∈ items →
      hasKey (bulkWrite s uid items) uid it.messageId = true := by
  induction items with
  | nil => intro s uid it h; cases h
  | cons hd rest ih =>
    intro s uid it h
    rcases List.mem_cons.mp h with h1 | h2
    · subst h1
      exact hasKey_bulkWrite_of rest (applyWrite s uid it) uid it.messageId
        (hasKey_applyWrite_self s uid it)
    · exact ih (applyWrite s uid hd) uid it h2

theorem bulkWrite_id (items : List ExtractedTransaction) :
    ∀ (s : List TxRow) (uid : List Char),
      (∀ it ∈ items, hasKey s uid it.messageId = true) → bulkWrite s uid items = s := by
  induction items with
  | nil => intro s uid _; rfl
  | cons hd rest ih =>
    intro s uid h
    have h1 : applyWrite s uid hd = s := by
      unfold applyWrite
      rw [if_pos (h hd (by simp))]
    show bulkWrite (applyWrite s uid hd) uid rest = s
    rw [h1]
    exact ih s uid (fun it hit => h it (by simp [hit]))

theorem bulkWrite_spec (items : List ExtractedTransaction) :
    ∀ (s : List TxRow) (uid : List Char),
      ∃ t, bulkWrite s uid items = s ++ t ∧
        ∀ r ∈ t, r.userId = uid ∧ r.tx ∈ items ∧ hasKey s uid r.tx.messageId = false := by
  induction items with
  | nil => intro s uid; exact ⟨[], by simp [bulkWrite]⟩
  | cons hd rest ih =>
    intro s uid
    show ∃ t, bulkWrite (applyWrite s uid hd) uid rest = s ++ t ∧ _
    unfold applyWrite
    by_cases hk : hasKey s uid hd.messageId = true
    · rw [if_pos hk]
      obtain ⟨t, ht, hprop⟩ := ih s uid
      exact ⟨t, ht, fun r hr => ⟨(hprop r hr).1, by simp [(hprop r hr).2.1], (hprop r hr).2.2⟩⟩
    · rw [if_neg hk]
      obtain ⟨t, ht, hprop⟩ := ih (s ++ [⟨uid, hd⟩]) uid
      refine ⟨⟨uid, hd⟩ :: t, by simpa using ht, ?_⟩
      intro r hr
      rcases List.mem_cons.mp hr with h1 | h2
      · subst h1
        exact ⟨rfl, by simp, by simpa using hk⟩
      · obtain ⟨hu, hm, hkk⟩ := hprop r h2
        refine ⟨hu, by simp [hm], ?_⟩
        have := hasKey_append s [⟨uid, hd⟩] uid r.tx.messageId
        rw [this] at hkk
        exact (Bool.or_eq_false_iff.mp hkk).1

theorem mem_importedOf (msgs : List GmailMessage) (p : ExtractedTransaction) :
    p ∈ importedOf msgs ↔
      ∃ m ∈ msgs, parseGmailTransaction m = some p ∧ keptByImport p = true := by
  unfold importedOf
  rw [List.mem_filterMap]
  constructor
  · rintro ⟨m, hm, hf⟩
    refine ⟨m, hm, ?_⟩
    revert hf
    cases hp : parseGmailTransaction m with
    | none => intro h; cases h
    | some q =>
      simp only
      split
      · intro h
        cases h
        exact ⟨rfl, by assumption⟩
      · intro h; cases h
  · rintro ⟨m, hm, hp, hk⟩
    exact ⟨m, hm, by simp [hp, hk]⟩

theorem parse_eq_some (m : GmailMessage) (t : ExtractedTransaction)
    (h : parseGmailTransaction m = some t) : t = buildTx m := by
  unfold parseGmailTransaction at h
  split at h
  · cases h
  · exact (Option.some.injEq _ _ ▸ h).symm

theorem buildTx_amount (m : GmailMessage) : (buildTx m).amount = amountOf m := by
  simp only [buildTx]

theorem amountOf_shape (m : GmailMessage) (a : Int)
    (h : amountOf m = some a) : ∃ n : Nat, a = Int.ofNat n := by
  unfold amountOf at h
  simp only [Option.map_eq_some'] at h
  obtain ⟨cap, _, hc⟩ := h
  exact ⟨centsOfCapture cap, hc.symm⟩

theorem buildTx_needsReview (m : GmailMessage) :
    (buildTx m).needsReview = ((buildTx m).amount).isNone := by
  simp only [buildTx]

theorem take_append_length {α : Type} (l1 l2 : List α) : (l1 ++ l2).take l1.length = l1 := by
  induction l1 with
  | nil => rfl
  | cons a t ih => simp [ih]

theorem drop_append_length {α : Type} (l1 l2 : List α) : (l1 ++ l2).drop l1.length = l2 := by
  induction l1 with
  | nil => rfl
  | cons a t ih => simp [ih]

theorem drop_add_eq {α : Type} : ∀ (a b : Nat) (l : List α),
    l.drop (a + b) = (l.drop a).drop b := by
  intro a
  induction a with
  | zero => intro b l; simp
  | succ n ih =>
    intro b l
    cases l with
    | nil => simp
    | cons x xs =>
      have : n + 1 + b = (n + b) + 1 := by omega
      rw [this]
      simp only [List.drop_succ_cons]
      exact ih b xs

/-- Claim C2: a transaction row already persisted under the dedup key
`(userId, messageId)` is left untouched, in every field, by a re-run of the
import: the bulk upsert only ever appends rows whose dedup key was absent,
so the prior store is preserved verbatim as a prefix of the result. -/
theorem import_preserves_existing_rows (uid : List Char) (msgs : List GmailMessage)
    (store : List TxRow) :
    ∃ t, (runImport uid msgs store).1 = store ++ t ∧
      ∀ r ∈ t, hasKey store uid r.tx.messageId = false := by
  obtain ⟨t, ht, hp⟩ := bulkWrite_spec (importedOf msgs) store uid
  exact ⟨t, ht, fun r hr => (hp r hr).2.2⟩

/-- Claim C1 (amended): `runImport` responds with the number of messages
that passed extraction and filtering — the number of attempted upserts —
not the number of rows newly persisted; re-running the import over the same
messages leaves the persisted set unchanged and returns that same count
again (not 0). -/
theorem runImport_attempted_count (uid : List Char) (msgs : List GmailMessage)
    (store : List TxRow) :
    (runImport uid msgs store).2 = (importedOf msgs).length ∧
    (runImport uid msgs (runImport uid msgs store).1).1 = (runImport uid msgs store).1 ∧
    (runImport uid msgs (runImport uid msgs store).1).2 = (runImport uid msgs store).2 := by
  refine ⟨rfl, ?_, rfl⟩
  show bulkWrite (bulkWrite store uid (importedOf msgs)) uid (importedOf msgs) =
    bulkWrite store uid (importedOf msgs)
  exact bulkWrite_id _ _ _ (fun it hit => hasKey_bulkWrite _ _ _ _ hit)

/-- A payment notification used as a concrete import input. -/
def msgPay : GmailMessage :=
  ⟨("m1").toList, ("t1").toList, ("Paid Amount: SGD 5.00").toList, none,
   some (MimePart.mk [] none none [])⟩

def uid0 : List Char := ("alice").toList

/-- Claim C1 counterexample: after a first import of `msgPay` into an empty
store, a second run over the same message leaves the persisted set
unchanged, yet responds with count 1, not the 0 the claim requires for a
previously-seen message id. -/
theorem second_import_count_nonzero :
    (runImport uid0 [msgPay] ((runImport uid0 [msgPay] []).1)).1 =
      (runImport uid0 [msgPay] []).1 ∧
    (runImport uid0 [msgPay] ((runImport uid0 [msgPay] []).1)).2 = 1 ∧
    (1 : Nat) ≠ 0 := by decide

/-- Claim C10: a non-null extracted amount is always non-negative — both
amount patterns match only unsigned digit strings — and the coordinator's
skip of a parsed-but-not-kept amount can only be triggered by an amount of
exactly zero. -/
theorem extracted_amount_nonneg (m : GmailMessage) (t : ExtractedTransaction) (a : Int)
    (hp : parseGmailTransaction m = some t) (ha : t.amount = some a) :
    0 ≤ a ∧ (keptByImport t = false → a = 0) := by
  have he := parse_eq_some m t hp
  obtain ⟨n, hn⟩ := amountOf_shape m a (by rw [← buildTx_amount, ← he]; exact ha)
  subst hn
  constructor
  · exact Int.ofNat_nonneg n
  · intro hk
    simp only [keptByImport, ha] at hk
    simpa using hk

/-- Claim C8: every row the import adds to the store comes from a message
whose extraction succeeded with a strictly positive amount; extraction
results with a null amount (`needsReview = true`) or a zero amount are never
upserted. -/
theorem imported_rows_strictly_positive (uid : List Char) (msgs : List GmailMessage)
    (store : List TxRow) (r : TxRow)
    (hr : r ∈ (runImport uid msgs store).1) (hnew : r ∉ store) :
    ∃ m ∈ msgs, parseGmailTransaction m = some r.tx ∧
      ∃ n : Nat, r.tx.amount = some (Int.ofNat n) ∧ 0 < n ∧ r.tx.needsReview = false := by
  obtain ⟨t, ht, hp⟩ := bulkWrite_spec (importedOf msgs) store uid
  have hr2 : r ∈ store ++ t := by
    rw [← ht]
    exact hr
  rcases List.mem_append.mp hr2 with h | h
  · exact absurd h hnew
  · obtain ⟨-, hmem, -⟩ := hp r h
    obtain ⟨m, hm, hparse, hkept⟩ := (mem_importedOf msgs r.tx).mp hmem
    refine ⟨m, hm, hparse, ?_⟩
    have he := parse_eq_some m r.tx hparse
    cases ha : r.tx.amount with
    | none =>
      rw [keptByImport, ha] at hkept
      cases hkept
    | some a =>
      obtain ⟨n, hn⟩ := amountOf_shape m a (by rw [← buildTx_amount, ← he]; exact ha)
      subst hn
      have hnz : n ≠ 0 := by
        intro h0
        subst h0
        rw [keptByImport, ha] at hkept
        simp at hkept
      have hrev : r.tx.needsReview = false := by
        rw [he, buildTx_needsReview, ← he, ha]
        rfl
      exact ⟨n, rfl, Nat.pos_of_ne_zero hnz, hrev⟩

/-- Claim C4: a message whose lower-cased combined subject + snippet +
decoded-body text contains any of the incoming-funds keywords anywhere is
classified as a credit: extraction returns `null` and an import run over
that message stores nothing and counts nothing. -/
theorem receive_keyword_drops (m : GmailMessage) (k : List Char)
    (hk : k ∈ receiveKeywords) (hin : containsSub k (lowerOf m) = true) :
    parseGmailTransaction m = none ∧
    ∀ (uid : List Char) (store : List TxRow), runImport uid [m] store = (store, 0) := by
  have hg : keywordGate m = true := by
    unfold keywordGate
    rw [List.any_eq_true]
    exact ⟨k, hk, hin⟩
  have hnone : parseGmailTransaction m = none := by
    unfold parseGmailTransaction
    rw [if_pos hg]
  refine ⟨hnone, ?_⟩
  intro uid store
  have himp : importedOf [m] = [] := by
    unfold importedOf
    simp [hnone]
  unfold runImport
  rw [himp]
  rfl

/-- Claim C5: when no labeled `Amount:` occurrence exists in the normalized
text, the extracted amount comes from the first bare `SGD <number>` match,
and is null when that is also absent. -/
theorem bare_amount_fallback (m : GmailMessage) (t : ExtractedTransaction)
    (hp : parseGmailTransaction m = some t)
    (hno : allLabeledAmounts (textContentOf m) = []) :
    t.amount = (firstBareAmount (textContentOf m)).map
      (fun cap => (Int.ofNat (centsOfCapture cap))) := by
  have he := parse_eq_some m t hp
  rw [he, buildTx_amount]
  unfold amountOf amountCapture
  rw [hno]
  rfl

/-- Claim C3 (amended): when labeled `Amount:` occurrences exist, the
extractor selects the first capture whose decimal part has exactly two
digits; only when no capture passes the two-decimal test does it take the
last occurrence found. -/
theorem labeled_amount_selection (m : GmailMessage) (t : ExtractedTransaction)
    (caps : List (List Char))
    (hp : parseGmailTransaction m = some t)
    (hc : allLabeledAmounts (textContentOf m) = caps) (hne : caps ≠ []) :
    ∃ cap, t.amount = some (Int.ofNat (centsOfCapture cap)) ∧
      (match caps.find? hasTwoDecimals with
       | some c => cap = c
       | none => caps.getLast? = some cap) := by
  have he := parse_eq_some m t hp
  rw [he, buildTx_amount]
  unfold amountOf amountCapture chooseLabeledCapture
  rw [hc]
  cases hf : caps.find? hasTwoDecimals with
  | some c => exact ⟨c, rfl, by simp⟩
  | none =>
    cases hl : caps.getLast? with
    | none => exact absurd (List.getLast?_eq_none_iff.mp hl) hne
    | some c => exact ⟨c, by simp, by simp [hl]⟩

/-- Claim C6 (amended): the display name is the trimmed `To:` capture when
that capture exists and is non-empty after trimming, and otherwise the fixed
placeholder `Gmail import`; the subject header is not consulted as a
separate fallback (it only participates as part of the searched text). -/
theorem name_from_to_capture (m : GmailMessage) (t : ExtractedTransaction)
    (hp : parseGmailTransaction m = some t) :
    t.name = (match toCapture (textContentOf m) with
      | some g => if trimWs g = [] then ("Gmail import").toList else trimWs g
      | none => ("Gmail import").toList) := by
  have he := parse_eq_some m t hp
  rw [he]
  simp only [buildTx]
  unfold toValOf
  cases hg : toCapture (textContentOf m) with
  | none => simp
  | some g =>
    by_cases h : trimWs g = []
    · simp [h]
    · simp [h]

/-- A message carrying only a subject header: no recipient capture, no
amount, no keyword. -/
def msgSubjectOnly : GmailMessage :=
  ⟨("m6").toList, ("t6").toList, [], none,
   some (MimePart.mk [⟨("Subject").toList, ("Coffee Bean").toList⟩] none none [])⟩

/-- Claim C6 counterexample: for a message with subject `Coffee Bean` and no
`To:` capture, the claim requires the display name to fall back to the
subject, but the extractor produces the fixed placeholder `Gmail import`. -/
theorem name_subject_fallback_refuted :
    subjectOf msgSubjectOnly = ("Coffee Bean").toList ∧
    toCapture (textContentOf msgSubjectOnly) = none ∧
    (parseGmailTransaction msgSubjectOnly).map (fun t => t.name) =
      some (("Gmail import").toList) ∧
    ("Gmail import").toList ≠ ("Coffee Bean").toList := by decide

/-- A message with two labeled amounts that both carry two decimal digits. -/
def msgTwoAmounts : GmailMessage :=
  ⟨("m3").toList, ("t3").toList,
   ("Amount: SGD 1.00 fee Amount: SGD 2.00").toList, none,
   some (MimePart.mk [] none none [])⟩

/-- Claim C3 counterexample: with labeled captures `1.00` and `2.00`, both
passing the two-decimal test, the claim requires the last such occurrence
(`2.00`, i.e. 200 cents) but the extractor returns the first (`1.00`,
100 cents). -/
theorem labeled_last_two_decimal_refuted :
    allLabeledAmounts (textContentOf msgTwoAmounts) =
      [("1.00").toList, ("2.00").toList] ∧
    hasTwoDecimals (("1.00").toList) = true ∧
    hasTwoDecimals (("2.00").toList) = true ∧
    (parseGmailTransaction msgTwoAmounts).map (fun t => t.amount) =
      some (some (100 : Int)) ∧
    Int.ofNat (centsOfCapture (("2.00").toList)) = 200 ∧
    (100 : Int) ≠ 200 := by decide

/-- A single MIME part of type `text/plain` whose body is the base64url text
`aGk` ("hi"), and the same part with no mime type. -/
def textPlainPart : MimePart :=
  MimePart.mk [] (some (("text/plain").toList)) (some (("aGk").toList)) []

def untypedPart : MimePart :=
  MimePart.mk [] none (some (("aGk").toList)) []

/-- Claim C7: the body decoder is claimed to contribute each part's decoded
body exactly once and never to inspect the mime type; on a `text/plain`
part with body `"hi"` the decoder in fact emits the decoded body twice, and
removing only the mime type changes the output — the mime type is
inspected.  (The source appends the body a second time for parts whose mime
type starts with `text/`.) -/
theorem body_text_duplicated :
    collectBodyText (some textPlainPart) =
      (' ' :: ("hi").toList) ++ (' ' :: ("hi").toList) ∧
    collectBodyText (some untypedPart) = ' ' :: ("hi").toList := by decide

/-- Claim C9: for any authenticated cipher satisfying its contract (the
AES-256-GCM library primitive, modelled abstractly), and any non-empty
plaintext, decrypting the blob produced by `encrypt` — which bundles the
fresh 12-byte nonce and the 16-byte authentication tag with the ciphertext,
making `decrypt` self-contained — returns the original plaintext; and
whenever the cipher rejects the unpacked nonce/tag/ciphertext of a non-empty
blob (a tampered blob), `decrypt` propagates an authentication error rather
than returning data. -/
theorem vault_roundtrip_and_auth :
    (∀ (A : AEAD) (key iv pt : List Nat),
      pt ≠ [] → iv.length = 12 → (A.enc key iv pt).2.length = 16 →
      (∀ b ∈ iv, b < 256) → (∀ b ∈ (A.enc key iv pt).2, b < 256) →
      (∀ b ∈ (A.enc key iv pt).1, b < 256) →
      A.dec key iv (A.enc key iv pt).1 (A.enc key iv pt).2 = some pt →
      decryptVault A key ((encryptVault A key iv pt).getD []) = Except.ok (some pt)) ∧
    (∀ (A : AEAD) (key : List Nat) (payload : List Char), payload ≠ [] →
      A.dec key ((b64decode payload).take 12) ((b64decode payload).drop 28)
        (((b64decode payload).drop 12).take 16) = none →
      decryptVault A key payload = Except.error CryptoError.authError) := by
  constructor
  · intro A key iv pt hpt hiv htag hbiv hbtag hbct hdec
    have henc : encryptVault A key iv pt =
        some (b64encode (iv ++ ((A.enc key iv pt).2 ++ (A.enc key iv pt).1))) := by
      unfold encryptVault
      rw [if_neg hpt, List.append_assoc]
    rw [henc]
    simp only [Option.getD_some]
    have hblob : iv ++ ((A.enc key iv pt).2 ++ (A.enc key iv pt).1) ≠ [] := by
      intro h
      have : (iv ++ ((A.enc key iv pt).2 ++ (A.enc key iv pt).1)).length = 0 := by
        rw [h]; rfl
      simp [List.length_append, hiv] at this
    have hne : b64encode (iv ++ ((A.enc key iv pt).2 ++ (A.enc key iv pt).1)) ≠ [] :=
      b64encode_ne_nil _ hblob
    have hraw : b64decode (b64encode (iv ++ ((A.enc key iv pt).2 ++ (A.enc key iv pt).1))) =
        iv ++ ((A.enc key iv pt).2 ++ (A.enc key iv pt).1) := by
      apply b64decode_encode
      intro x hx
      rcases List.mem_append.mp hx with h | h
      · exact hbiv x h
      · rcases List.mem_append.mp h with h2 | h2
        · exact hbtag x h2
        · exact hbct x h2
    have h1 : (iv ++ ((A.enc key iv pt).2 ++ (A.enc key iv pt).1)).take 12 = iv := by
      rw [← hiv]
      exact take_append_length iv _
    have h2 : (iv ++ ((A.enc key iv pt).2 ++ (A.enc key iv pt).1)).drop 12 =
        (A.enc key iv pt).2 ++ (A.enc key iv pt).1 := by
      rw [← hiv]
      exact drop_append_length iv _
    have h3 : (iv ++ ((A.enc key iv pt).2 ++ (A.enc key iv pt).1)).drop 28 =
        (A.enc key iv pt).1 := by
      have h28 : (28 : Nat) = 12 + 16 := by omega
      rw [h28, drop_add_eq, h2, ← htag]
      exact drop_append_length _ _
    have h4 : ((A.enc key iv pt).2 ++ (A.enc key iv pt).1).take 16 = (A.enc key iv pt).2 := by
      rw [← htag]
      exact take_append_length _ _
    unfold decryptVault
    rw [if_neg hne, hraw, h1, h3, h2, h4, hdec]
  · intro A key payload hne hdec
    unfold decryptVault
    rw [if_neg hne, hdec]

/-- A previously-imported row that the user has since edited. -/
def editedTx : ExtractedTransaction := { buildTx msgPay with name := ("Edited").toList }

def editedStore : List TxRow := [⟨uid0, editedTx⟩]

/-- Claim C2 witness: importing `msgPay` over a store already holding an
edited row under the same dedup key appends nothing and leaves the edited
row intact. -/
theorem import_preserves_existing_rows_witness :
    (∃ t, (runImport uid0 [msgPay] editedStore).1 = editedStore ++ t ∧
      ∀ r ∈ t, hasKey editedStore uid0 r.tx.messageId = false) ∧
    (runImport uid0 [msgPay] editedStore).1 = editedStore :=
  ⟨import_preserves_existing_rows uid0 [msgPay] editedStore, by decide⟩

/-- Claim C1 witness: the amended count/idempotence statement at the
concrete single-message run. -/
theorem runImport_attempted_count_witness :
    (runImport uid0 [msgPay] []).2 = (importedOf [msgPay]).length ∧
    (runImport uid0 [msgPay] ((runImport uid0 [msgPay] []).1)).1 =
      (runImport uid0 [msgPay] []).1 ∧
    (runImport uid0 [msgPay] ((runImport uid0 [msgPay] []).1)).2 =
      (runImport uid0 [msgPay] []).2 :=
  runImport_attempted_count uid0 [msgPay] []

/-- Claim C10 witness: the concrete 5.00 SGD extraction (500 cents). -/
theorem extracted_amount_nonneg_witness :
    (0 : Int) ≤ 500 ∧ (keptByImport (buildTx msgPay) = false → (500 : Int) = 0) :=
  extracted_amount_nonneg msgPay (buildTx msgPay) 500 (by decide) (by decide)

def payRow : TxRow := ⟨uid0, buildTx msgPay⟩

/-- Claim C8 witness: the row inserted by the concrete import of `msgPay`
originates from a successful extraction with a strictly positive amount. -/
theorem imported_rows_strictly_positive_witness :
    ∃ m ∈ [msgPay], parseGmailTransaction m = some payRow.tx ∧
      ∃ n : Nat, payRow.tx.amount = some (Int.ofNat n) ∧ 0 < n ∧
        payRow.tx.needsReview = false :=
  imported_rows_strictly_positive uid0 [msgPay] [] payRow (by decide) (by decide)

/-- The spec's classification-gate example message. -/
def msgReceived : GmailMessage :=
  ⟨("m4").toList, ("t4").toList, ("You received S$50.00 from Alex").toList, none, none⟩

/-- Claim C4 witness: the "You received S$50.00 from Alex" message is
dropped: extraction yields `null` and an import over it stores nothing. -/
theorem receive_keyword_drops_witness :
    parseGmailTransaction msgReceived = none ∧
    runImport uid0 [msgReceived] [] = ([], 0) :=
  ⟨(receive_keyword_drops msgReceived (("received").toList) (by decide) (by decide)).1,
   (receive_keyword_drops msgReceived (("received").toList) (by decide) (by decide)).2 uid0 []⟩

/-- The spec's bare-fallback example message. -/
def msgLunch : GmailMessage :=
  ⟨("m5").toList, ("t5").toList, ("Lunch SGD 45.00").toList, none, none⟩

/-- Claim C5 witness: with no labeled occurrence, `SGD 45.00` is read by the
bare fallback and yields 4500 cents. -/
theorem bare_amount_fallback_witness :
    (buildTx msgLunch).amount = (firstBareAmount (textContentOf msgLunch)).map
      (fun cap => (Int.ofNat (centsOfCapture cap))) ∧
    (buildTx msgLunch).amount = some (4500 : Int) :=
  ⟨bare_amount_fallback msgLunch (buildTx msgLunch) (by decide) (by decide), by decide⟩

/-- The spec's amount-preference example message. -/
def msgPref : GmailMessage :=
  ⟨("m3w").toList, ("t3w").toList,
   ("Pay Amount: SGD 12.3 Amount: SGD 12.30").toList, none, none⟩

/-- Claim C3 witness: among `12.3` and `12.30` only the latter passes the
two-decimal test, so the selection yields 1230 cents, matching the spec's
example. -/
theorem labeled_amount_selection_witness :
    (∃ cap, (buildTx msgPref).amount = some (Int.ofNat (centsOfCapture cap)) ∧
      (match (allLabeledAmounts (textContentOf msgPref)).find? hasTwoDecimals with
       | some c => cap = c
       | none => (allLabeledAmounts (textContentOf msgPref)).getLast? = some cap)) ∧
    (buildTx msgPref).amount = some (1230 : Int) :=
  ⟨labeled_amount_selection msgPref (buildTx msgPref)
      (allLabeledAmounts (textContentOf msgPref)) (by decide) rfl (by decide),
   by decide⟩

/-- A message with a recipient capture. -/
def msgAlice : GmailMessage :=
  ⟨("m6w").toList, ("t6w").toList, ("Paid. To: Alice From: DBS").toList, none, none⟩

/-- Claim C6 witness: the `To:` capture `Alice` becomes the display name. -/
theorem name_from_to_capture_witness :
    (buildTx msgAlice).name = (match toCapture (textContentOf msgAlice) with
      | some g => if trimWs g = [] then ("Gmail import").toList else trimWs g
      | none => ("Gmail import").toList) ∧
    (buildTx msgAlice).name = ("Alice").toList :=
  ⟨name_from_to_capture msgAlice (buildTx msgAlice) (by decide), by decide⟩

/-- A concrete cipher satisfying the AEAD contract used to instantiate the
vault theorem: the ciphertext is the plaintext and the tag is a 16-byte
keyed checksum. -/
def demoAEAD : AEAD :=
  ⟨fun k n p => (p, (List.range 16).map (fun i => (k.sum + n.sum + p.sum + i) % 256)),
   fun k n c t =>
     if t = (List.range 16).map (fun i => (k.sum + n.sum + c.sum + i) % 256) then some c
     else none⟩

/-- Claim C9 witness: a concrete round trip through the blob format, and a
concrete tampered blob rejected with an authentication error. -/
theorem vault_roundtrip_and_auth_witness :
    decryptVault demoAEAD [7]
      ((encryptVault demoAEAD [7] (List.replicate 12 0) [104, 105]).getD []) =
      Except.ok (some [104, 105]) ∧
    decryptVault demoAEAD [7] (['A', 'A', 'A', 'A']) =
      Except.error CryptoError.authError :=
  ⟨vault_roundtrip_and_auth.1 demoAEAD [7] (List.replicate 12 0) [104, 105]
      (by decide) (by decide) (by decide) (by decide) (by decide) (by decide) (by decide),
   vault_roundtrip_and_auth.2 demoAEAD [7] (['A', 'A', 'A', 'A']) (by decide) (by decide)⟩
